import Mathlib

/-!
Verification development for the pgconfig-ce repository.

The configuration-line parser (`webapp/pgconfig.py`), the pickle-based
version-diff engine (`webapp/pgconfig2.py`), and the file-based diff
helpers (`webapp/pgconfig.py`) are shallowly embedded below.  Python
strings handled character by character are modelled as `List Char`;
pandas missing values (NaN) are modelled as `none : Option String`, and
the Python/pandas rule that `NaN != x` is `True` for every `x`
(including `NaN` itself) is captured by `nanNe`.
-/

namespace Webapp

/-- Whitespace recognised by Python `str.strip()` (the ASCII part, which is
all that occurs in configuration files). -/
def pyIsSpace (c : Char) : Bool :=
  c = ' ' || c = '\t' || c = '\n' || c = '\r' || c = '\x0b' || c = '\x0c'

/-- Drop the trailing characters satisfying `p`. -/
def dropTrailing (p : Char → Bool) (l : List Char) : List Char :=
  (l.reverse.dropWhile p).reverse

/-- Python `str.strip()`: remove leading and trailing whitespace. -/
def strip (l : List Char) : List Char :=
  dropTrailing pyIsSpace (l.dropWhile pyIsSpace)

/-- Python `line.partition(c)[::2]` for a one-character separator: the part
before the first occurrence of `c` and the part after it.  When `c` does not
occur, the first component is the whole line and the second is empty, exactly
as in Python where `partition` then returns `(line, '', '')`. -/
def partitionChar (c : Char) : List Char → List Char × List Char
  | [] => ([], [])
  | x :: xs =>
      if x = c then ([], xs)
      else
        let p := partitionChar c xs
        (x :: p.1, p.2)

namespace PgConfig

/-- `_parse_line_remove_comment` from `webapp/pgconfig.py`: truncate the line
at the first `#` (keep it whole when there is none) and strip whitespace. -/
def parse_line_remove_comment (line : List Char) : List Char :=
  strip (partitionChar '#' line).1

/-- `_get_config_lines` from `webapp/pgconfig.py` (the `custom_config`
branch, with the text already split into lines): remove comments from each
line and skip the lines that become empty. -/
def get_config_lines : List (List Char) → List (List Char)
  | [] => []
  | lineRaw :: rest =>
      let line := parse_line_remove_comment lineRaw
      if line.isEmpty then get_config_lines rest
      else line :: get_config_lines rest

/-- The body of the first loop of `_parse_config_lines`:
`key, value = line.partition("=")[::2]` followed by `strip()` on both. -/
def parse_pair (line : List Char) : List Char × List Char :=
  let p := partitionChar '=' line
  (strip p.1, strip p.2)

/-- Python `set.add`: a Python `set` of strings is modelled as a duplicate-free
list in insertion order (the claims settled below do not depend on the
iteration order of the set). -/
def setAdd (s : List (List Char)) (k : List Char) : List (List Char) :=
  if k ∈ s then s else s ++ [k]

/-- The first loop of `_parse_config_lines` from `webapp/pgconfig.py`:
accumulates all `(key, value)` pairs in order, the set `keys` of keys seen,
and the set `dup_keys` of keys seen more than once. -/
def parse_loop : List (List Char) → List (List Char × List Char) →
    List (List Char) → List (List Char) →
    List (List Char × List Char) × List (List Char) × List (List Char)
  | [], opts, keys, dupKeys => (opts, keys, dupKeys)
  | line :: rest, opts, keys, dupKeys =>
      let kv := parse_pair line
      let dupKeys2 := if kv.1 ∈ keys then setAdd dupKeys kv.1 else dupKeys
      parse_loop rest (opts ++ [kv]) (setAdd keys kv.1) dupKeys2

/-- `_parse_config_lines` from `webapp/pgconfig.py`: returns the full ordered
option list and the duplicates list built by the second (nested) loop, which
appends, for each duplicated key, every row carrying that key. -/
def parse_config_lines (lines : List (List Char)) :
    List (List Char × List Char) × List (List Char × List Char) :=
  let r := parse_loop lines [] [] []
  (r.1, r.2.2.flatMap (fun key => r.1.filter (fun row => row.1 = key)))

/-- `parse_pg_config` from `webapp/pgconfig.py` restricted to the parsing
pipeline on custom text (the DataFrame wrapping is presentational):
comment removal followed by key/value extraction. -/
def parse_pg_config_custom (raw : List (List Char)) :
    List (List Char × List Char) × List (List Char × List Char) :=
  parse_config_lines (get_config_lines raw)

/-- Number of parsed rows whose key is `k`. -/
def keyCount (k : List Char) (opts : List (List Char × List Char)) : Nat :=
  (opts.filter (fun row => row.1 = k)).length

/-- `VERSION_REDIRECTS` from `webapp/pgconfig.py`. -/
def VERSION_REDIRECTS : List (String × String) := [("12beta4", "12")]

/-- `check_redirect` from `webapp/pgconfig.py`: the loop returns the target of
the first matching redirect entry, and the original version when no entry
matches. -/
def check_redirect (version : String) : String :=
  match VERSION_REDIRECTS.find? (fun r => r.1 = version) with
  | some r => r.2
  | none => version

end PgConfig

/-- Pandas `!=` on two cells that may be missing (`NaN`): a comparison
involving `NaN` on either side (including both) is `True`; two present values
compare by ordinary inequality. -/
def nanNe : Option String → Option String → Bool
  | some a, some b => a ≠ b
  | _, _ => true

namespace PgConfig

/-- One row of the projected frame `config_summary[['parameter', vers1,
vers2]]` used by the file-based `config_changes` in `webapp/pgconfig.py`:
the parameter name and the (possibly missing) value columns of the two
compared versions. -/
structure SummaryRow where
  parameter : String
  v1 : Option String
  v2 : Option String
deriving DecidableEq

/-- The file-based `config_changes` from `webapp/pgconfig.py`:
`data[(data[vers1] != data[vers2]) & (data[vers1].notnull() |
data[vers2].notnull())]`. -/
def config_changes (summary : List SummaryRow) : List SummaryRow :=
  summary.filter (fun row => nanNe row.v1 row.v2 && (row.v1.isSome || row.v2.isSome))

/-- The statistics dictionary returned by the file-based
`config_changes_stats`. -/
structure FileChangeStats where
  new : Int
  updated : Int
  removed : Int
deriving DecidableEq

/-- `config_changes_stats` from `webapp/pgconfig.py`: `new` counts the rows
whose version-1 cell is missing, `removed` those whose version-2 cell is
missing, and `updated` the rows that differ after `dropna()` (both cells
present).  `count().max()` equals the row count of each frame because the
`parameter` column is never null. -/
def config_changes_stats (changes : List SummaryRow) : FileChangeStats :=
  let new : Int := (changes.filter (fun row => row.v1.isNone)).length
  let removed : Int := (changes.filter (fun row => row.v2.isNone)).length
  let updated : Int := ((changes.filter (fun row => nanNe row.v1 row.v2)).filter
      (fun row => row.v1.isSome && row.v2.isSome)).length
  { new := new, updated := updated, removed := removed }

end PgConfig

namespace PgConfig2

/-- `NEW_STRING` from `webapp/pgconfig2.py`. -/
def NEW_STRING : String := "Configuration parameter added"

/-- `REMOVED_STRING` from `webapp/pgconfig2.py`. -/
def REMOVED_STRING : String := "Configuration parameter removed"

/-- `VERSIONS` from `webapp/pgconfig2.py`. -/
def VERSIONS : List String := ["10", "11", "12", "13", "14", "15", "16"]

/-- The columns of one pickled parameter record that the diff classification
reads.  The remaining columns (`short_desc`, `category`, `enumvals`,
`boot_val_display`, ...) are carried through `config_changes` purely for
display and are not consulted by `classify_changes`. -/
structure ParamData where
  default_config_line : String
  boot_val : String
  vartype : String
deriving DecidableEq

/-- A version table as produced by `load_config_data`: rows indexed by the
parameter name. -/
def VersionTable := List (String × ParamData)

/-- One row of the frame built by `pd.concat([data1, data2], axis=1)` in
`config_changes`: the version-1 columns and the suffixed version-2 columns,
each missing (`NaN`) when the parameter is absent from that version. -/
structure CombinedRow where
  name : String
  default_config_line : Option String
  default_config_line2 : Option String
  boot_val : Option String
  boot_val2 : Option String
  vartype : Option String
  vartype2 : Option String
deriving DecidableEq

/-- `is_NaN` from `webapp/pgconfig2.py` (`input != input`): with missing
values modelled as `none`, a cell is NaN exactly when it is absent. -/
def is_NaN (input : Option String) : Bool := input.isNone

/-- `classify_changes` from `webapp/pgconfig2.py`: added when version 1 is
missing and version 2 present, removed in the symmetric case, otherwise the
comma-separated list of the default-value and variable-type differences. -/
def classify_changes (row : CombinedRow) : String :=
  let delim := ", "
  if is_NaN row.default_config_line && !is_NaN row.default_config_line2 then
    String.intercalate delim ["Configuration parameter added"]
  else if is_NaN row.default_config_line2 && !is_NaN row.default_config_line then
    String.intercalate delim ["Configuration parameter removed"]
  else
    let changes :=
      (if nanNe row.boot_val row.boot_val2 then ["Changed default value"] else []) ++
      (if nanNe row.vartype row.vartype2 then ["Changed variable type"] else [])
    String.intercalate delim changes

/-- Index lookup in a version table (pandas row alignment by index). -/
def lookupParam (tbl : VersionTable) (name : String) : Option ParamData :=
  (tbl.find? (fun p => p.1 = name)).map Prod.snd

/-- The index of `pd.concat([data1, data2], axis=1)`: the union of the two
row indexes; names of the first table followed by the names appearing only in
the second. -/
def combinedIndex (d1 d2 : VersionTable) : List String :=
  d1.map Prod.fst ++ (d2.map Prod.fst).filter (fun n => n ∉ d1.map Prod.fst)

/-- The aligned row of the combined frame for one parameter name: version-1
and version-2 cells are present exactly when the parameter occurs in the
corresponding table. -/
def mkCombinedRow (d1 d2 : VersionTable) (name : String) : CombinedRow :=
  let p1 := lookupParam d1 name
  let p2 := lookupParam d2 name
  { name := name
    default_config_line := p1.map (fun p => p.default_config_line)
    default_config_line2 := p2.map (fun p => p.default_config_line)
    boot_val := p1.map (fun p => p.boot_val)
    boot_val2 := p2.map (fun p => p.boot_val)
    vartype := p1.map (fun p => p.vartype)
    vartype2 := p2.map (fun p => p.vartype) }

/-- One row of the returned diff: the parameter name with its `summary`
column (`combined['summary'] = combined.apply(classify_changes, axis=1)`).
The other selected columns are display data untouched by the filter. -/
structure DiffRow where
  name : String
  summary : String
deriving DecidableEq

/-- The combined frame with its computed `summary` column. -/
def classify_table (d1 d2 : VersionTable) : List DiffRow :=
  (combinedIndex d1 d2).map
    (fun n => { name := n, summary := classify_changes (mkCombinedRow d1 d2 n) })

/-- The final filter of `config_changes`:
`changed = combined[combined['summary'] != '']`. -/
def config_changes_diff (d1 d2 : VersionTable) : List DiffRow :=
  (classify_table d1 d2).filter (fun r => r.summary ≠ "")

/-- `load_config_data` from `webapp/pgconfig2.py`, with the filesystem
abstracted as a partial map from version number to pickled table: an invalid
version raises `ValueError`; a missing snapshot file (`FileNotFoundError`) is
logged and yields an empty frame; otherwise the pickled rows are returned
(the `history_url` column and the index assignment are presentational). -/
def load_config_data (files : Int → Option VersionTable) (pg_version : Int) :
    Except String VersionTable :=
  if toString pg_version ∉ VERSIONS then
    Except.error "Invalid Postgres version."
  else
    match files pg_version with
    | none => Except.ok []
    | some data => Except.ok data

/-- `config_changes` from `webapp/pgconfig2.py`: reject a non-increasing
version pair before touching any data, then load both tables, align them,
classify every row and keep the rows with a non-empty summary.

An empty table models the column-less `pd.DataFrame()` that
`load_config_data` returns when a snapshot file is missing (or an empty
pickle).  On such a frame the subsequent column accesses raise: with one
side empty, `combined.apply(classify_changes, axis=1)` reads a column that
the concatenated frame does not have (`KeyError`), and with both sides
empty `squash_columns` selects the absent `short_desc2`/`short_desc`
columns.  The diff path therefore fails whenever either loaded table is
empty, and only a pair of non-empty tables reaches the summary filter. -/
def config_changes (files : Int → Option VersionTable) (vers1 vers2 : Int) :
    Except String (List DiffRow) :=
  if vers2 ≤ vers1 then
    Except.error "Version 1 must be lower (before) version 2."
  else do
    let data1 ← load_config_data files vers1
    let data2 ← load_config_data files vers2
    if data1.isEmpty || data2.isEmpty then
      Except.error "KeyError: column not found"
    else
      Except.ok (config_changes_diff data1 data2)

/-- The statistics triple returned by `config_changes_stats`. -/
structure ChangeStats where
  new : Int
  updated : Int
  removed : Int
deriving DecidableEq

/-- `config_changes_stats` from `webapp/pgconfig2.py`.  In the real frame
`changes.count().max()` equals the number of rows because the `summary`
column is never null (`apply` always produced a string), and likewise on the
frames filtered by summary value; `updated` is computed by subtraction. -/
def config_changes_stats (changes : List DiffRow) : ChangeStats :=
  let new : Int := (changes.filter (fun r => r.summary = NEW_STRING)).length
  let removed : Int := (changes.filter (fun r => r.summary = REMOVED_STRING)).length
  let total : Int := changes.length
  { new := new, updated := total - new - removed, removed := removed }

end PgConfig2

/-! ### Theorems -/

/-- Every row of a file-based diff result differs in the two version cells
and has at least one of them present, so the added, removed and updated rows
partition the result. -/
lemma file_stats_partition (L : List PgConfig.SummaryRow)
    (h : ∀ row ∈ L, nanNe row.v1 row.v2 = true ∧
      (row.v1.isSome = true ∨ row.v2.isSome = true)) :
    ((L.filter (fun row => row.v1.isNone)).length : Int) +
        (L.filter (fun row => row.v2.isNone)).length +
        ((L.filter (fun row => nanNe row.v1 row.v2)).filter
          (fun row => row.v1.isSome && row.v2.isSome)).length = L.length := by
  induction L with
  | nil => simp
  | cons row rest ih =>
      have hrow := h row (List.mem_cons_self row rest)
      have hrest : ∀ r ∈ rest, nanNe r.v1 r.v2 = true ∧
          (r.v1.isSome = true ∨ r.v2.isSome = true) :=
        fun r hr => h r (List.mem_cons_of_mem row hr)
      have ihr := ih hrest
      rcases hv1 : row.v1 with _ | a <;> rcases hv2 : row.v2 with _ | b
      · rw [hv1, hv2] at hrow
        simp at hrow
      · simp [List.filter_cons, List.filter_filter, hv1, hv2, nanNe] at ihr ⊢
        omega
      · simp [List.filter_cons, List.filter_filter, hv1, hv2, nanNe] at ihr ⊢
        omega
      · rw [hv1, hv2] at hrow
        have hab : ¬ a = b := by
          have hne := hrow.1
          simpa [nanNe] using hne
        simp [List.filter_cons, List.filter_filter, hv1, hv2, nanNe, hab] at ihr ⊢
        omega

/-- C3: in both diff engines the change statistics satisfy
added + removed + updated = total rows of the diff result, with no row
double-counted even when a row changes several fields at once: in the
pickle-based engine `updated` is total minus the two disjoint summary
counts, and in the file-based engine the three counted row sets partition
every diff result produced by `config_changes`. -/
theorem stats_total_spec (changes : List PgConfig2.DiffRow)
    (summary : List PgConfig.SummaryRow) :
    ((PgConfig2.config_changes_stats changes).new +
      (PgConfig2.config_changes_stats changes).removed +
      (PgConfig2.config_changes_stats changes).updated = changes.length) ∧
    ((PgConfig.config_changes_stats (PgConfig.config_changes summary)).new +
      (PgConfig.config_changes_stats (PgConfig.config_changes summary)).removed +
      (PgConfig.config_changes_stats (PgConfig.config_changes summary)).updated =
      (PgConfig.config_changes summary).length) := by
  constructor
  · simp only [PgConfig2.config_changes_stats]
    ring
  · have h : ∀ row ∈ PgConfig.config_changes summary,
        nanNe row.v1 row.v2 = true ∧ (row.v1.isSome = true ∨ row.v2.isSome = true) := by
      intro row hrow
      have hm := List.mem_filter.mp hrow
      have hp := hm.2
      simp only [Bool.and_eq_true, Bool.or_eq_true] at hp
      exact hp
    have hpart := file_stats_partition (PgConfig.config_changes summary) h
    simp only [PgConfig.config_changes_stats]
    omega

/-- The rows counted as added and as removed are disjoint, so the two counts
together never exceed the number of rows. -/
lemma filter_new_removed_le (changes : List PgConfig2.DiffRow) :
    (changes.filter (fun r => r.summary = PgConfig2.NEW_STRING)).length +
      (changes.filter (fun r => r.summary = PgConfig2.REMOVED_STRING)).length ≤
      changes.length := by
  have hne : PgConfig2.NEW_STRING ≠ PgConfig2.REMOVED_STRING := by decide
  have hne2 : PgConfig2.REMOVED_STRING ≠ PgConfig2.NEW_STRING := hne.symm
  induction changes with
  | nil => simp
  | cons r rest ih =>
      by_cases h1 : r.summary = PgConfig2.NEW_STRING
      · have h2 : ¬ r.summary = PgConfig2.REMOVED_STRING := by
          rw [h1]; exact hne
        simp [List.filter_cons, h1, h2, hne]
        omega
      · by_cases h2 : r.summary = PgConfig2.REMOVED_STRING
        · simp [List.filter_cons, h1, h2, hne2]
          omega
        · simp [List.filter_cons, h1, h2]
          omega

/-- C9: the `updated` count is never negative: the added rows and the removed
rows are disjoint subsets of the diff rows (the two summary strings differ),
so subtracting both counts from the total stays at or above zero. -/
theorem pgconfig2_stats_updated_nonneg (changes : List PgConfig2.DiffRow) :
    0 ≤ (PgConfig2.config_changes_stats changes).updated := by
  simp only [PgConfig2.config_changes_stats]
  have h := filter_new_removed_le changes
  omega

/-- C8: `check_redirect` maps the listed beta identifier `12beta4` to its
stable successor `12`, and returns any version not listed in
`VERSION_REDIRECTS` unchanged. -/
theorem check_redirect_spec :
    PgConfig.check_redirect "12beta4" = "12" ∧
    ∀ v : String, (∀ r ∈ PgConfig.VERSION_REDIRECTS, v ≠ r.1) →
      PgConfig.check_redirect v = v := by
  refine ⟨rfl, ?_⟩
  intro v h
  have hnone : PgConfig.VERSION_REDIRECTS.find? (fun r => r.1 = v) = none := by
    rw [List.find?_eq_none]
    intro r hr
    simpa using fun he => (h r hr) he.symm
  simp [PgConfig.check_redirect, hnone]

/-- C8 witness: a version with no redirect entry comes back unchanged. -/
theorem check_redirect_spec_witness : PgConfig.check_redirect "13" = "13" :=
  check_redirect_spec.2 "13" (by decide)

/-- C7: when the snapshot file for a supported version is absent from the
store, `load_config_data` returns the empty table instead of failing. -/
theorem load_config_data_missing_file (files : Int → Option PgConfig2.VersionTable)
    (v : Int) (hv : toString v ∈ PgConfig2.VERSIONS) (hf : files v = none) :
    PgConfig2.load_config_data files v = Except.ok [] := by
  simp [PgConfig2.load_config_data, hv, hf]

/-- C7 witness: version 12 with an empty file store loads as the empty
table. -/
theorem load_config_data_missing_file_witness :
    PgConfig2.load_config_data (fun _ => none) 12 = Except.ok [] :=
  load_config_data_missing_file (fun _ => none) 12 (by decide) rfl

/-- C2: `config_changes` rejects every pair with `vers2 ≤ vers1` with the
invalid-argument error, for every state of the data store (hence before any
version data is read), and it proceeds — returns any diff at all — only
when `vers2` is strictly greater than `vers1`. -/
theorem pgconfig2_config_changes_version_order
    (files : Int → Option PgConfig2.VersionTable) (vers1 vers2 : Int) :
    (vers2 ≤ vers1 → PgConfig2.config_changes files vers1 vers2 =
      Except.error "Version 1 must be lower (before) version 2.") ∧
    (∀ rows : List PgConfig2.DiffRow,
      PgConfig2.config_changes files vers1 vers2 = Except.ok rows →
      vers1 < vers2) := by
  constructor
  · intro h
    simp [PgConfig2.config_changes, h]
  · intro rows hok
    by_contra hlt
    have h : vers2 ≤ vers1 := not_lt.mp hlt
    unfold PgConfig2.config_changes at hok
    rw [if_pos h] at hok
    simp at hok

/-- C2 witness: comparing version 13 against the older version 12 fails with
the ordering error, and a run that does return a diff has its versions in
strictly increasing order. -/
theorem pgconfig2_config_changes_version_order_witness :
    PgConfig2.config_changes (fun _ => none) 13 12 =
      Except.error "Version 1 must be lower (before) version 2." ∧
    (12 : Int) < 13 :=
  ⟨(pgconfig2_config_changes_version_order (fun _ => none) 13 12).1 (by decide),
   (pgconfig2_config_changes_version_order
      (fun v : Int => if v = 12 then some [("p", ⟨"p = 1", "1", "integer"⟩)]
        else if v = 13 then some [("p", ⟨"p = 2", "2", "integer"⟩)] else none)
      12 13).2 [⟨"p", "Changed default value"⟩] rfl⟩

/-- C10: the file-based `config_changes` keeps exactly the rows whose two
version cells differ under the pandas comparison with at least one cell
present; in particular a parameter missing from both compared versions never
appears in the result, even though the underlying comparison treats
NaN-versus-NaN as unequal. -/
theorem file_config_changes_rows (summary : List PgConfig.SummaryRow)
    (row : PgConfig.SummaryRow) :
    (row ∈ PgConfig.config_changes summary ↔
      row ∈ summary ∧ nanNe row.v1 row.v2 = true ∧
        (row.v1.isSome = true ∨ row.v2.isSome = true)) ∧
    (row.v1 = none → row.v2 = none → row ∉ PgConfig.config_changes summary) ∧
    nanNe none none = true := by
  refine ⟨?_, ?_, rfl⟩
  · simp only [PgConfig.config_changes, List.mem_filter, Bool.and_eq_true,
      Bool.or_eq_true, decide_eq_true_eq]
  · intro h1 h2 hmem
    simp [PgConfig.config_changes, List.mem_filter, h1, h2] at hmem

/-- C10 witness: a row whose value is absent in both versions is excluded
from the changes of a summary containing it. -/
theorem file_config_changes_rows_witness :
    (⟨"p", none, none⟩ : PgConfig.SummaryRow) ∉
      PgConfig.config_changes [⟨"p", none, none⟩] :=
  (file_config_changes_rows [⟨"p", none, none⟩] ⟨"p", none, none⟩).2.1 rfl rfl

/-- C1: over the alignment by parameter name built by `config_changes`, a
parameter absent from version 1 and present in version 2 is classified as
added; present in version 1 and absent from version 2 as removed; when
present in both, the default value and the variable type are compared
independently and each difference is reported, both together when both
differ; and the returned diff keeps exactly the rows whose classification is
non-empty. -/
theorem pgconfig2_classify_spec (d1 d2 : PgConfig2.VersionTable) (n : String) :
    (PgConfig2.lookupParam d1 n = none →
      ∀ q : PgConfig2.ParamData, PgConfig2.lookupParam d2 n = some q →
        PgConfig2.classify_changes (PgConfig2.mkCombinedRow d1 d2 n) =
          PgConfig2.NEW_STRING) ∧
    (PgConfig2.lookupParam d2 n = none →
      ∀ q : PgConfig2.ParamData, PgConfig2.lookupParam d1 n = some q →
        PgConfig2.classify_changes (PgConfig2.mkCombinedRow d1 d2 n) =
          PgConfig2.REMOVED_STRING) ∧
    (∀ q1 q2 : PgConfig2.ParamData,
      PgConfig2.lookupParam d1 n = some q1 → PgConfig2.lookupParam d2 n = some q2 →
      (q1.boot_val ≠ q2.boot_val → q1.vartype ≠ q2.vartype →
        PgConfig2.classify_changes (PgConfig2.mkCombinedRow d1 d2 n) =
          "Changed default value, Changed variable type") ∧
      (q1.boot_val ≠ q2.boot_val → q1.vartype = q2.vartype →
        PgConfig2.classify_changes (PgConfig2.mkCombinedRow d1 d2 n) =
          "Changed default value") ∧
      (q1.boot_val = q2.boot_val → q1.vartype ≠ q2.vartype →
        PgConfig2.classify_changes (PgConfig2.mkCombinedRow d1 d2 n) =
          "Changed variable type") ∧
      (q1.boot_val = q2.boot_val → q1.vartype = q2.vartype →
        PgConfig2.classify_changes (PgConfig2.mkCombinedRow d1 d2 n) = "")) ∧
    (∀ r : PgConfig2.DiffRow, r ∈ PgConfig2.config_changes_diff d1 d2 ↔
      r ∈ PgConfig2.classify_table d1 d2 ∧ r.summary ≠ "") := by
  refine ⟨?_, ?_, ?_, ?_⟩
  · intro hp1 q hp2
    simp only [PgConfig2.mkCombinedRow, PgConfig2.classify_changes, PgConfig2.is_NaN,
      hp1, hp2, Option.map_none, Option.map_some, Option.isNone_none,
      Option.isNone_some, Bool.not_false, Bool.and_self, if_pos]
    rfl
  · intro hp2 q hp1
    simp only [PgConfig2.mkCombinedRow, PgConfig2.classify_changes, PgConfig2.is_NaN,
      hp1, hp2, Option.map_none, Option.map_some, Option.isNone_none,
      Option.isNone_some, Bool.not_false, Bool.not_true, Bool.and_false,
      Bool.and_true, Bool.false_and, Bool.true_and, if_neg, if_pos,
      Bool.false_eq_true, not_false_eq_true]
    rfl
  · intro q1 q2 hp1 hp2
    refine ⟨?_, ?_, ?_, ?_⟩ <;> intro hb hv <;>
      (simp [PgConfig2.mkCombinedRow, PgConfig2.classify_changes, PgConfig2.is_NaN,
        nanNe, hp1, hp2, hb, hv, String.intercalate]
       try rfl)
  · intro r
    simp [PgConfig2.config_changes_diff, List.mem_filter]

/-- C1 witness: a parameter present only in the second table is classified
as added, and the diff-membership characterisation holds at a concrete
row. -/
theorem pgconfig2_classify_spec_witness :
    PgConfig2.classify_changes (PgConfig2.mkCombinedRow []
        [("work_mem", ⟨"work_mem = 4MB", "4MB", "integer"⟩)] "work_mem") =
      PgConfig2.NEW_STRING :=
  (pgconfig2_classify_spec [] [("work_mem", ⟨"work_mem = 4MB", "4MB", "integer"⟩)]
      "work_mem").1 rfl ⟨"work_mem = 4MB", "4MB", "integer"⟩ (by decide)

/-- C5: a line without `=` parses without error into the degenerate pair of
the whole stripped line and the empty value. -/
theorem parse_pair_no_equals (line : List Char) (h : '=' ∉ line) :
    PgConfig.parse_pair line = (strip line, []) := by
  have hp : partitionChar '=' line = (line, []) := by
    induction line with
    | nil => rfl
    | cons x xs ih =>
        simp only [List.mem_cons, not_or] at h
        have hx : ¬ x = '=' := fun he => h.1 he.symm
        simp only [partitionChar, if_neg hx, ih h.2]
  simp [PgConfig.parse_pair, hp, strip, dropTrailing]

/-- C5 witness: a malformed line with no `=` yields its stripped text as key
and an empty value. -/
theorem parse_pair_no_equals_witness :
    PgConfig.parse_pair " max_wal_size ".toList = (strip " max_wal_size ".toList, []) :=
  parse_pair_no_equals " max_wal_size ".toList (by decide)

/-! Helper lemmas about the parser loop. -/

lemma keyCount_append (k : List Char) (o1 o2 : List (List Char × List Char)) :
    PgConfig.keyCount k (o1 ++ o2) = PgConfig.keyCount k o1 + PgConfig.keyCount k o2 := by
  simp [PgConfig.keyCount, List.filter_append]

lemma keyCount_single (k : List Char) (kv : List Char × List Char) :
    PgConfig.keyCount k [kv] = if kv.1 = k then 1 else 0 := by
  by_cases h : kv.1 = k <;> simp [PgConfig.keyCount, List.filter_singleton, h]

lemma mem_setAdd (s : List (List Char)) (k x : List Char) :
    x ∈ PgConfig.setAdd s k ↔ x ∈ s ∨ x = k := by
  unfold PgConfig.setAdd
  by_cases h : k ∈ s
  · rw [if_pos h]
    constructor
    · exact Or.inl
    · rintro (hx | rfl)
      · exact hx
      · exact h
  · rw [if_neg h]
    simp

lemma nodup_setAdd (s : List (List Char)) (k : List Char) (h : s.Nodup) :
    (PgConfig.setAdd s k).Nodup := by
  unfold PgConfig.setAdd
  by_cases hk : k ∈ s
  · rwa [if_pos hk]
  · rw [if_neg hk, List.nodup_append]
    exact ⟨h, List.nodup_singleton k,
      fun a ha hb => hk ((List.mem_singleton.mp hb) ▸ ha)⟩

/-- Invariant of the first loop of `_parse_config_lines`: the option list
accumulates every parsed pair in order, and the duplicate-key set holds
exactly the keys occurring at least twice among the pairs parsed so far. -/
lemma parse_loop_spec (lines : List (List Char)) :
    ∀ (opts : List (List Char × List Char)) (keys dupKeys : List (List Char)),
      (∀ k, k ∈ keys ↔ 0 < PgConfig.keyCount k opts) →
      (∀ k, k ∈ dupKeys ↔ 2 ≤ PgConfig.keyCount k opts) →
      dupKeys.Nodup →
      (PgConfig.parse_loop lines opts keys dupKeys).1 =
          opts ++ lines.map PgConfig.parse_pair ∧
        (∀ k, k ∈ (PgConfig.parse_loop lines opts keys dupKeys).2.2 ↔
          2 ≤ PgConfig.keyCount k (opts ++ lines.map PgConfig.parse_pair)) ∧
        (PgConfig.parse_loop lines opts keys dupKeys).2.2.Nodup := by
  induction lines with
  | nil =>
      intro opts keys dupKeys hkeys hdup hnodup
      simpa [PgConfig.parse_loop] using ⟨hdup, hnodup⟩
  | cons line rest ih =>
      intro opts keys dupKeys hkeys hdup hnodup
      have hkeys2 : ∀ k, k ∈ PgConfig.setAdd keys (PgConfig.parse_pair line).1 ↔
          0 < PgConfig.keyCount k (opts ++ [PgConfig.parse_pair line]) := by
        intro k
        rw [mem_setAdd, keyCount_append, keyCount_single]
        by_cases hk : (PgConfig.parse_pair line).1 = k
        · simp [hk, hkeys k]
        · have hk2 : ¬ (k = (PgConfig.parse_pair line).1) := fun he => hk he.symm
          simp [hk, hk2, hkeys k]
      by_cases hmem : (PgConfig.parse_pair line).1 ∈ keys
      · have hdup2 : ∀ k, k ∈ PgConfig.setAdd dupKeys (PgConfig.parse_pair line).1 ↔
            2 ≤ PgConfig.keyCount k (opts ++ [PgConfig.parse_pair line]) := by
          intro k
          rw [mem_setAdd, keyCount_append, keyCount_single]
          by_cases hk : (PgConfig.parse_pair line).1 = k
          · subst hk
            have h1 : 0 < PgConfig.keyCount (PgConfig.parse_pair line).1 opts :=
              (hkeys _).mp hmem
            simp
            omega
          · have hk2 : ¬ (k = (PgConfig.parse_pair line).1) := fun he => hk he.symm
            simp [hk, hk2, hdup k]
        have H := ih (opts ++ [PgConfig.parse_pair line])
          (PgConfig.setAdd keys (PgConfig.parse_pair line).1)
          (PgConfig.setAdd dupKeys (PgConfig.parse_pair line).1)
          hkeys2 hdup2 (nodup_setAdd _ _ hnodup)
        simp only [PgConfig.parse_loop, if_pos hmem]
        refine ⟨?_, ?_, H.2.2⟩
        · rw [H.1]
          simp
        · intro k
          rw [H.2.1 k]
          simp
      · have hdup2 : ∀ k, k ∈ dupKeys ↔
            2 ≤ PgConfig.keyCount k (opts ++ [PgConfig.parse_pair line]) := by
          intro k
          rw [keyCount_append, keyCount_single]
          by_cases hk : (PgConfig.parse_pair line).1 = k
          · subst hk
            have h0 : ¬ 0 < PgConfig.keyCount (PgConfig.parse_pair line).1 opts :=
              fun hh => hmem ((hkeys _).mpr hh)
            have h0e : PgConfig.keyCount (PgConfig.parse_pair line).1 opts = 0 := by omega
            rw [h0e]
            simp
            intro hin
            have := (hdup _).mp hin
            omega
          · have hk2 : ¬ (k = (PgConfig.parse_pair line).1) := fun he => hk he.symm
            simp [hk, hdup k]
        have H := ih (opts ++ [PgConfig.parse_pair line])
          (PgConfig.setAdd keys (PgConfig.parse_pair line).1)
          dupKeys hkeys2 hdup2 hnodup
        simp only [PgConfig.parse_loop, if_neg hmem]
        refine ⟨?_, ?_, H.2.2⟩
        · rw [H.1]
          simp
        · intro k
          rw [H.2.1 k]
          simp

/-- Counting the rows for key `K` inside the duplicates list built by the
second loop of `_parse_config_lines`. -/
lemma dups_filter_length (dupKeys : List (List Char))
    (opts : List (List Char × List Char)) (K : List Char) (hnd : dupKeys.Nodup) :
    ((dupKeys.flatMap (fun key => opts.filter (fun row => row.1 = key))).filter
        (fun row => row.1 = K)).length =
      if K ∈ dupKeys then PgConfig.keyCount K opts else 0 := by
  induction dupKeys with
  | nil => simp
  | cons k ks ih =>
      have hnd2 := List.nodup_cons.mp hnd
      rw [List.flatMap_cons, List.filter_append, List.length_append, ih hnd2.2]
      by_cases hk : K = k
      · subst hk
        have h1 : ((opts.filter (fun row => row.1 = K)).filter
            (fun row => row.1 = K)).length = PgConfig.keyCount K opts := by
          rw [List.filter_filter]
          simp [PgConfig.keyCount]
        rw [h1]
        simp [hnd2.1]
      · have h1 : ((opts.filter (fun row => row.1 = k)).filter
            (fun row => row.1 = K)) = [] := by
          rw [List.filter_filter]
          rw [List.filter_eq_nil_iff]
          intro row _
          simp only [Bool.and_eq_true, decide_eq_true_eq, not_and]
          intro hK hks
          exact hk (hK.symm.trans hks)
        rw [h1]
        simp [List.mem_cons, hk]

/-- C4: the full result list of `_parse_config_lines` keeps every parsed
`(key, value)` pair, repeated keys included, in input order; when a key
occurs `N > 1` times the duplicates list holds exactly `N` entries for it;
and when no key repeats the duplicates list is empty. -/
theorem parse_config_lines_duplicates (lines : List (List Char)) (K : List Char) :
    (PgConfig.parse_config_lines lines).1 = lines.map PgConfig.parse_pair ∧
    (1 < PgConfig.keyCount K (PgConfig.parse_config_lines lines).1 →
      (((PgConfig.parse_config_lines lines).2).filter
          (fun row => row.1 = K)).length =
        PgConfig.keyCount K (PgConfig.parse_config_lines lines).1) ∧
    ((∀ k : List Char, PgConfig.keyCount k (PgConfig.parse_config_lines lines).1 ≤ 1) →
      (PgConfig.parse_config_lines lines).2 = []) := by
  have H := parse_loop_spec lines [] [] []
    (by intro k; simp [PgConfig.keyCount]) (by intro k; simp [PgConfig.keyCount])
    List.nodup_nil
  have hfst : (PgConfig.parse_config_lines lines).1 = lines.map PgConfig.parse_pair := by
    rw [PgConfig.parse_config_lines, H.1]
    simp
  refine ⟨hfst, ?_, ?_⟩
  · intro hK
    rw [hfst] at hK
    have hsnd : (PgConfig.parse_config_lines lines).2 =
        (PgConfig.parse_loop lines [] [] []).2.2.flatMap
          (fun key => (PgConfig.parse_loop lines [] [] []).1.filter
            (fun row => row.1 = key)) := rfl
    rw [hsnd, hfst, H.1]
    simp only [List.nil_append]
    rw [dups_filter_length _ _ _ H.2.2]
    have hmem : K ∈ (PgConfig.parse_loop lines [] [] []).2.2 := by
      rw [H.2.1 K]
      simp only [List.nil_append]
      omega
    rw [if_pos hmem]
  · intro hall
    have hempty : (PgConfig.parse_loop lines [] [] []).2.2 = [] := by
      rw [List.eq_nil_iff_forall_not_mem]
      intro k hk
      have := (H.2.1 k).mp hk
      simp only [List.nil_append] at this
      have hle := hall k
      rw [hfst] at hle
      omega
    have hsnd : (PgConfig.parse_config_lines lines).2 =
        (PgConfig.parse_loop lines [] [] []).2.2.flatMap
          (fun key => (PgConfig.parse_loop lines [] [] []).1.filter
            (fun row => row.1 = key)) := rfl
    rw [hsnd, hempty]
    rfl

/-- C4 witness: with the key `a` defined twice, the duplicates list holds
exactly the two rows for `a`; the full list is both parsed pairs in input
order. -/
theorem parse_config_lines_duplicates_witness :
    (PgConfig.parse_config_lines ["a = 1".toList, "a = 2".toList]).1 =
        ["a = 1".toList, "a = 2".toList].map PgConfig.parse_pair ∧
      (((PgConfig.parse_config_lines ["a = 1".toList, "a = 2".toList]).2).filter
          (fun row => row.1 = "a".toList)).length =
        PgConfig.keyCount "a".toList
          (PgConfig.parse_config_lines ["a = 1".toList, "a = 2".toList]).1 :=
  ⟨(parse_config_lines_duplicates ["a = 1".toList, "a = 2".toList] "a".toList).1,
   (parse_config_lines_duplicates ["a = 1".toList, "a = 2".toList] "a".toList).2.1
     (by decide)⟩

/-! Helper lemmas about comment stripping. -/

lemma mem_of_mem_strip {x : Char} {l : List Char} (h : x ∈ strip l) : x ∈ l := by
  unfold strip dropTrailing at h
  rw [List.mem_reverse] at h
  have h2 := (List.dropWhile_sublist _).subset h
  rw [List.mem_reverse] at h2
  exact (List.dropWhile_sublist _).subset h2

lemma mem_partitionChar_fst {x c : Char} {l : List Char}
    (h : x ∈ (partitionChar c l).1) : x ∈ l := by
  induction l with
  | nil => simp [partitionChar] at h
  | cons y ys ih =>
      by_cases hy : y = c
      · simp [partitionChar, hy] at h
      · simp only [partitionChar, if_neg hy] at h
        rcases List.mem_cons.mp h with h | h
        · exact List.mem_cons.mpr (Or.inl h)
        · exact List.mem_cons.mpr (Or.inr (ih h))

lemma mem_partitionChar_snd {x c : Char} {l : List Char}
    (h : x ∈ (partitionChar c l).2) : x ∈ l := by
  induction l with
  | nil => simp [partitionChar] at h
  | cons y ys ih =>
      by_cases hy : y = c
      · simp only [partitionChar, if_pos hy] at h
        exact List.mem_cons.mpr (Or.inr h)
      · simp only [partitionChar, if_neg hy] at h
        exact List.mem_cons.mpr (Or.inr (ih h))

lemma not_mem_partitionChar_fst_self (c : Char) (l : List Char) :
    c ∉ (partitionChar c l).1 := by
  induction l with
  | nil => simp [partitionChar]
  | cons y ys ih =>
      by_cases hy : y = c
      · simp [partitionChar, hy]
      · simp only [partitionChar, if_neg hy]
        intro h
        rcases List.mem_cons.mp h with h | h
        · exact hy h.symm
        · exact ih h

lemma parse_line_remove_comment_no_hash (line : List Char) :
    '#' ∉ PgConfig.parse_line_remove_comment line :=
  fun h => not_mem_partitionChar_fst_self '#' line (mem_of_mem_strip h)

lemma get_config_lines_eq (raw : List (List Char)) :
    PgConfig.get_config_lines raw =
      (raw.map PgConfig.parse_line_remove_comment).filter (fun l => !l.isEmpty) := by
  induction raw with
  | nil => rfl
  | cons r rs ih =>
      simp only [PgConfig.get_config_lines, List.map_cons, List.filter_cons]
      by_cases h : (PgConfig.parse_line_remove_comment r).isEmpty
      · simp [h, ih]
      · simp [h, ih]

lemma mem_get_config_lines {l : List Char} {raw : List (List Char)}
    (h : l ∈ PgConfig.get_config_lines raw) : l ≠ [] ∧ '#' ∉ l := by
  rw [get_config_lines_eq] at h
  obtain ⟨hmap, hne⟩ := List.mem_filter.mp h
  obtain ⟨r, _, rfl⟩ := List.mem_map.mp hmap
  refine ⟨?_, parse_line_remove_comment_no_hash r⟩
  intro hnil
  rw [hnil] at hne
  simp at hne

/-- C6: comment removal: each line is truncated at its first `#`, whitespace
trimmed, and dropped when it becomes empty; comment-only and blank lines
(all whitespace before the first `#`, if any) contribute no parsed entry, so
the number of entries equals the number of lines with content; and no parsed
key or value ever contains a `#` (trailing inline comments are excluded). -/
theorem comment_handling (raw : List (List Char)) :
    PgConfig.get_config_lines raw =
      (raw.map PgConfig.parse_line_remove_comment).filter (fun l => !l.isEmpty) ∧
    (∀ line : List Char, (∀ c ∈ (partitionChar '#' line).1, pyIsSpace c = true) →
      PgConfig.parse_line_remove_comment line = []) ∧
    ((PgConfig.parse_pg_config_custom raw).1.length =
      (raw.filter (fun l => !(PgConfig.parse_line_remove_comment l).isEmpty)).length) ∧
    (∀ kv ∈ (PgConfig.parse_pg_config_custom raw).1, '#' ∉ kv.1 ∧ '#' ∉ kv.2) := by
  refine ⟨get_config_lines_eq raw, ?_, ?_, ?_⟩
  · intro line h
    have h1 : (partitionChar '#' line).1.dropWhile pyIsSpace = [] :=
      List.dropWhile_eq_nil_iff.mpr h
    unfold PgConfig.parse_line_remove_comment strip dropTrailing
    rw [h1]
    rfl
  · have hfst := (parse_config_lines_duplicates (PgConfig.get_config_lines raw) []).1
    rw [PgConfig.parse_pg_config_custom, hfst, List.length_map, get_config_lines_eq,
      List.filter_map, List.length_map]
    rfl
  · intro kv hkv
    have hfst := (parse_config_lines_duplicates (PgConfig.get_config_lines raw) []).1
    rw [PgConfig.parse_pg_config_custom, hfst] at hkv
    obtain ⟨line, hline, rfl⟩ := List.mem_map.mp hkv
    have hnohash := (mem_get_config_lines hline).2
    constructor
    · intro hmem
      exact hnohash (mem_partitionChar_fst (mem_of_mem_strip hmem))
    · intro hmem
      exact hnohash (mem_partitionChar_snd (mem_of_mem_strip hmem))

/-- C6 witness: a comment-only line is stripped to nothing and filtered
out. -/
theorem comment_handling_witness :
    PgConfig.parse_line_remove_comment "  # comment only".toList = [] ∧
    PgConfig.get_config_lines ["  # comment only".toList] =
      (["  # comment only".toList].map PgConfig.parse_line_remove_comment).filter
        (fun l => !l.isEmpty) :=
  ⟨(comment_handling ["  # comment only".toList]).2.1 "  # comment only".toList
      (by decide),
   (comment_handling ["  # comment only".toList]).1⟩

end Webapp
